import Mathlib

/-!
A verification development for the Scraptopedia site crawler.

The crawler core (function `crawl` nested in `crawlSite`) is embedded as
`crawlGo`: a fuel-indexed state function.  The browser fetcher is modelled
as a finite association list from URLs to page data; a URL absent from the
list is a failing fetch (in the source, `page.goto` rejects and the
exception propagates).  Wall-clock readings (`Date.now()` deltas) are
modelled by an oracle `clock : Nat → Nat` giving the elapsed milliseconds
at the n-th clock read; the state counts reads in `tick`.  A ghost `trace`
records checkpoint, fetch and recursive-invocation events; it is only ever
appended to and never read by the algorithm.
-/

/-- The data extracted from one loaded page (`scrapePageData`'s result). -/
structure PageData where
  links : List String
  images : List String
  textContent : String
  htmlContent : String
deriving DecidableEq, Repr

/-- One entry of `allData`: `{ url, ...pageData }`. -/
structure PageRecord where
  url : String
  links : List String
  images : List String
  textContent : String
  htmlContent : String
deriving DecidableEq, Repr

def mkRecord (url : String) (pd : PageData) : PageRecord :=
  { url := url, links := pd.links, images := pd.images,
    textContent := pd.textContent, htmlContent := pd.htmlContent }

/-- Ghost events of a crawl execution: a deadline checkpoint (with the
elapsed milliseconds it read and whether it observed expiry), a fetch of a
URL (`scrapePageData` call), and a recursive invocation `crawl(link)` made
from the page `parent`. -/
inductive CrawlEv where
  | check (elapsed : Nat) (expired : Bool)
  | fetch (url : String)
  | invoke (parent : String) (link : String)
deriving DecidableEq, Repr

/-- The mutable state of `crawlSite`: the visited set (a list, newest
first), the accumulated records, plus ghost instrumentation. -/
structure CrawlState where
  visited : List String
  allData : List PageRecord
  trace : List CrawlEv
  tick : Nat
deriving DecidableEq, Repr

/-- How a crawl can abort: an uncaught fetch/extract exception for a URL,
or exhaustion of the model's recursion fuel (never reached by the bound
`fuelBound`). -/
inductive CrawlErr where
  | fetchFail (url : String)
  | outOfFuel
deriving DecidableEq, Repr

/-- Control position: about to run `crawl(url)`, or inside `crawl`'s
for-loop over the remaining discovered links of page `url`. -/
inductive CrawlMode where
  | page (url : String)
  | links (url : String) (rest : List String)
deriving DecidableEq, Repr

/-- `elapsedTime >= timeLimit` with `elapsedTime = ms / 1000`: for integer
millisecond readings this is exactly `1000 * timeLimit ≤ ms`. -/
def deadlineCheck (tl : Nat) (elapsed : Nat) : Bool :=
  decide (1000 * tl ≤ elapsed)

/-- JS `s.startsWith(pre)`: character-wise test that `pre` begins `s`. -/
def strStartsWith (s pre : String) : Bool :=
  pre.data.isPrefixOf s.data

/-- The crawler core, a shallow embedding of the nested `crawl` function of
`crawlSite`.  `m` is the fetcher (URL ↦ extracted page data, missing URL =
rejected navigation), `tl` the time limit in seconds, `clock` the elapsed-
milliseconds oracle.  Mirrors the source exactly: visited-set check, entry
checkpoint, mark-visited, fetch (failure propagates as an error), record,
then the per-link loop with its own checkpoint and the
`link.startsWith(url)` guard, where `url` is the *current* page's URL. -/
def crawlGo (m : List (String × PageData)) (tl : Nat) (clock : Nat → Nat) :
    Nat → CrawlMode → CrawlState → CrawlState × Option CrawlErr
  | 0, _, s => (s, some CrawlErr.outOfFuel)
  | fuel+1, CrawlMode.page url, s =>
    if url ∈ s.visited then (s, none)
    else
      let elapsed := clock s.tick
      let s1 : CrawlState :=
        { s with tick := s.tick + 1,
                 trace := s.trace ++ [CrawlEv.check elapsed (deadlineCheck tl elapsed)] }
      if deadlineCheck tl elapsed then (s1, none)
      else
        let s2 : CrawlState :=
          { s1 with visited := url :: s1.visited,
                    trace := s1.trace ++ [CrawlEv.fetch url] }
        match m.lookup url with
        | none => (s2, some (CrawlErr.fetchFail url))
        | some pd =>
          let s3 : CrawlState := { s2 with allData := s2.allData ++ [mkRecord url pd] }
          crawlGo m tl clock fuel (CrawlMode.links url pd.links) s3
  | _+1, CrawlMode.links _ [], s => (s, none)
  | fuel+1, CrawlMode.links url (link :: rest), s =>
    let elapsed := clock s.tick
    let s1 : CrawlState :=
      { s with tick := s.tick + 1,
               trace := s.trace ++ [CrawlEv.check elapsed (deadlineCheck tl elapsed)] }
    if deadlineCheck tl elapsed then (s1, none)
    else if strStartsWith link url then
      let s2 : CrawlState := { s1 with trace := s1.trace ++ [CrawlEv.invoke url link] }
      match crawlGo m tl clock fuel (CrawlMode.page link) s2 with
      | (s', some e) => (s', some e)
      | (s', none) => crawlGo m tl clock fuel (CrawlMode.links url rest) s'
    else crawlGo m tl clock fuel (CrawlMode.links url rest) s1

/-- Recursion fuel that dominates the depth of the call tree: each page
contributes one page frame, one loop frame per link and a terminal empty-
loop frame. -/
def fuelBound (m : List (String × PageData)) : Nat :=
  (m.map (fun p => p.2.links.length + 2)).sum + 2

def initState : CrawlState :=
  { visited := [], allData := [], trace := [], tick := 0 }

/-- `crawlSite url browser timeLimit` from seed `seed`: fresh visited set
and accumulator, then `crawl(seed)`. -/
def runCrawl (m : List (String × PageData)) (tl : Nat) (clock : Nat → Nat)
    (seed : String) : CrawlState × Option CrawlErr :=
  crawlGo m tl clock (fuelBound m) (CrawlMode.page seed) initState

/-- `scrapperFunc`: returns `crawlSite`'s accumulated data, or — when an
error escaped the crawl — logs and *rethrows* it (`throw error` in the
`catch` block), so the caller sees the error, not the data. -/
def scrapperFunc (m : List (String × PageData)) (tl : Nat) (clock : Nat → Nat)
    (seed : String) : Except CrawlErr (List PageRecord) :=
  match runCrawl m tl clock seed with
  | (s, none) => Except.ok s.allData
  | (_, some e) => Except.error e

/-- The URLs passed to `scrapePageData`, in call order. -/
def fetchedUrls (l : List CrawlEv) : List String :=
  l.filterMap (fun ev => match ev with
    | CrawlEv.fetch u => some u
    | _ => none)

/-- The links on which `crawl` was recursively invoked from page `u`, in
invocation order. -/
def invokesFrom (u : String) (l : List CrawlEv) : List String :=
  l.filterMap (fun ev => match ev with
    | CrawlEv.invoke p link => if p = u then some link else none
    | _ => none)

theorem crawlGo_mono (m : List (String × PageData)) (tl : Nat) (clock : Nat → Nat) :
    ∀ fuel mode s, s.trace <+: (crawlGo m tl clock fuel mode s).1.trace ∧
      s.tick ≤ (crawlGo m tl clock fuel mode s).1.tick ∧
      s.visited <:+ (crawlGo m tl clock fuel mode s).1.visited := by
  intro fuel
  induction fuel with
  | zero =>
    intro mode s
    simp [crawlGo]
  | succ n ih =>
    intro mode s
    match mode with
    | CrawlMode.page url =>
      simp only [crawlGo]
      split
      · simp
      · split
        · simp
        · split
          · simp
          · refine ⟨List.IsPrefix.trans ?_ (ih _ _).1, Nat.le_trans ?_ (ih _ _).2.1,
              List.IsSuffix.trans ?_ (ih _ _).2.2⟩
            · exact List.IsPrefix.trans ⟨_, rfl⟩ ⟨_, rfl⟩
            · exact Nat.le_succ _
            · exact List.suffix_cons _ _
    | CrawlMode.links url [] => simp [crawlGo]
    | CrawlMode.links url (link :: rest) =>
      simp only [crawlGo]
      split
      · simp
      · split
        · split
          · rename_i s' e heq
            have h := ih (CrawlMode.page link)
              { visited := s.visited, allData := s.allData,
                trace := s.trace ++ [CrawlEv.check (clock s.tick) (deadlineCheck tl (clock s.tick))] ++
                  [CrawlEv.invoke url link],
                tick := s.tick + 1 }
            rw [heq] at h
            refine ⟨List.IsPrefix.trans ?_ h.1, Nat.le_trans ?_ h.2.1, List.IsSuffix.trans ?_ h.2.2⟩
            · exact List.IsPrefix.trans ⟨_, rfl⟩ ⟨_, rfl⟩
            · exact Nat.le_succ _
            · exact List.suffix_refl _
          · rename_i s' heq
            have h := ih (CrawlMode.page link)
              { visited := s.visited, allData := s.allData,
                trace := s.trace ++ [CrawlEv.check (clock s.tick) (deadlineCheck tl (clock s.tick))] ++
                  [CrawlEv.invoke url link],
                tick := s.tick + 1 }
            rw [heq] at h
            have h' := ih (CrawlMode.links url rest) s'
            refine ⟨(List.IsPrefix.trans ?_ h.1).trans h'.1, Nat.le_trans (Nat.le_trans ?_ h.2.1) h'.2.1,
              (List.IsSuffix.trans ?_ h.2.2).trans h'.2.2⟩
            · exact List.IsPrefix.trans ⟨_, rfl⟩ ⟨_, rfl⟩
            · exact Nat.le_succ _
            · exact List.suffix_refl _
        · refine ⟨List.IsPrefix.trans ?_ (ih _ _).1, Nat.le_trans ?_ (ih _ _).2.1,
            List.IsSuffix.trans ?_ (ih _ _).2.2⟩
          · exact ⟨_, rfl⟩
          · exact Nat.le_succ _
          · exact List.suffix_refl _

def recordUrls (l : List PageRecord) : List String :=
  l.map PageRecord.url

@[simp] theorem fetchedUrls_nil : fetchedUrls [] = [] := rfl

@[simp] theorem fetchedUrls_append (a b : List CrawlEv) :
    fetchedUrls (a ++ b) = fetchedUrls a ++ fetchedUrls b := by
  simp [fetchedUrls]

@[simp] theorem fetchedUrls_cons_check (e : Nat) (x : Bool) (l : List CrawlEv) :
    fetchedUrls (CrawlEv.check e x :: l) = fetchedUrls l := rfl

@[simp] theorem fetchedUrls_cons_fetch (u : String) (l : List CrawlEv) :
    fetchedUrls (CrawlEv.fetch u :: l) = u :: fetchedUrls l := rfl

@[simp] theorem fetchedUrls_cons_invoke (p q : String) (l : List CrawlEv) :
    fetchedUrls (CrawlEv.invoke p q :: l) = fetchedUrls l := rfl

@[simp] theorem recordUrls_nil : recordUrls [] = [] := rfl

@[simp] theorem recordUrls_append (a b : List PageRecord) :
    recordUrls (a ++ b) = recordUrls a ++ recordUrls b := by
  simp [recordUrls]

@[simp] theorem recordUrls_cons (r : PageRecord) (l : List PageRecord) :
    recordUrls (r :: l) = r.url :: recordUrls l := rfl

@[simp] theorem mkRecord_url (u : String) (pd : PageData) :
    (mkRecord u pd).url = u := rfl

/-- Relation between recorded pages and fetch attempts: they coincide,
except that a run aborted by `fetchFail u` has attempted `u` without
recording it. -/
def fetchInv (r : CrawlState × Option CrawlErr) : Prop :=
  match r.2 with
  | some (CrawlErr.fetchFail u) => recordUrls r.1.allData ++ [u] = fetchedUrls r.1.trace
  | _ => recordUrls r.1.allData = fetchedUrls r.1.trace

theorem crawlGo_visit_inv (m : List (String × PageData)) (tl : Nat) (clock : Nat → Nat) :
    ∀ fuel mode s,
      s.visited.Nodup → fetchedUrls s.trace = s.visited.reverse →
      recordUrls s.allData = fetchedUrls s.trace →
      (crawlGo m tl clock fuel mode s).1.visited.Nodup ∧
        fetchedUrls (crawlGo m tl clock fuel mode s).1.trace =
          (crawlGo m tl clock fuel mode s).1.visited.reverse ∧
        fetchInv (crawlGo m tl clock fuel mode s) := by
  intro fuel
  induction fuel with
  | zero =>
    intro mode s h1 h2 h3
    exact ⟨h1, h2, h3⟩
  | succ n ih =>
    intro mode s h1 h2 h3
    match mode with
    | CrawlMode.page url =>
      simp only [crawlGo]
      split
      · exact ⟨h1, h2, h3⟩
      · rename_i hv
        split
        · refine ⟨h1, by simpa using h2, ?_⟩
          simpa [fetchInv] using h3
        · split
          · rename_i hm
            refine ⟨List.Nodup.cons hv h1, ?_, ?_⟩
            · simp [h2]
            · simp [fetchInv, h3]
          · rename_i pd hm
            apply ih
            · exact List.Nodup.cons hv h1
            · simp [h2]
            · simp [h3]
    | CrawlMode.links url [] =>
      exact ⟨h1, h2, h3⟩
    | CrawlMode.links url (link :: rest) =>
      simp only [crawlGo]
      split
      · refine ⟨h1, by simpa using h2, ?_⟩
        simpa [fetchInv] using h3
      · split
        · split
          · rename_i s' e heq
            have h := ih (CrawlMode.page link)
              { visited := s.visited, allData := s.allData,
                trace := s.trace ++ [CrawlEv.check (clock s.tick) (deadlineCheck tl (clock s.tick))] ++
                  [CrawlEv.invoke url link],
                tick := s.tick + 1 }
              (by simpa using h1) (by simpa using h2) (by simpa using h3)
            rw [heq] at h
            exact h
          · rename_i s' heq
            have h := ih (CrawlMode.page link)
              { visited := s.visited, allData := s.allData,
                trace := s.trace ++ [CrawlEv.check (clock s.tick) (deadlineCheck tl (clock s.tick))] ++
                  [CrawlEv.invoke url link],
                tick := s.tick + 1 }
              (by simpa using h1) (by simpa using h2) (by simpa using h3)
            rw [heq] at h
            simp only [fetchInv] at h
            exact ih (CrawlMode.links url rest) s' h.1 h.2.1 h.2.2
        · apply ih
          · simpa using h1
          · simpa using h2
          · simpa using h3

/-- Claim C3: within one crawl no URL is fetched twice: the visited set has
no duplicates, the fetch log equals the visited set in visit order (each
URL is marked exactly when its fetch begins, after the membership check),
and the recorded pages are an initial segment of the fetch log, so each URL
has at most one fetch and at most one PageRecord. -/
theorem c3_no_url_fetched_twice (m : List (String × PageData)) (tl : Nat)
    (clock : Nat → Nat) (seed : String) :
    (runCrawl m tl clock seed).1.visited.Nodup ∧
    (fetchedUrls (runCrawl m tl clock seed).1.trace).Nodup ∧
    fetchedUrls (runCrawl m tl clock seed).1.trace =
      (runCrawl m tl clock seed).1.visited.reverse ∧
    (recordUrls (runCrawl m tl clock seed).1.allData).Nodup ∧
    recordUrls (runCrawl m tl clock seed).1.allData <+:
      fetchedUrls (runCrawl m tl clock seed).1.trace := by
  have h := crawlGo_visit_inv m tl clock (fuelBound m) (CrawlMode.page seed) initState
    (by simp [initState]) (by simp [initState]) (by simp [initState])
  obtain ⟨h1, h2, h3⟩ := h
  have hnodupFetch : (fetchedUrls (runCrawl m tl clock seed).1.trace).Nodup := by
    rw [show (runCrawl m tl clock seed) =
      crawlGo m tl clock (fuelBound m) (CrawlMode.page seed) initState from rfl, h2]
    exact List.nodup_reverse.mpr h1
  have hpre : recordUrls (runCrawl m tl clock seed).1.allData <+:
      fetchedUrls (runCrawl m tl clock seed).1.trace := by
    have h3' := h3
    unfold fetchInv at h3'
    rcases hsplit : (crawlGo m tl clock (fuelBound m) (CrawlMode.page seed) initState).2 with _ | e
    · rw [hsplit] at h3'
      exact ⟨[], by simpa using h3'⟩
    · rcases e with u | _
      · rw [hsplit] at h3'
        exact ⟨[u], h3'⟩
      · rw [hsplit] at h3'
        exact ⟨[], by simpa using h3'⟩
  exact ⟨h1, hnodupFetch, h2, hpre.sublist.nodup hnodupFetch, hpre⟩

/-- Claim C6: with `timeLimit = 0` the entry checkpoint always observes
`elapsed >= 0 = timeLimit`, i.e. the deadline is already expired at entry
(and likewise for any clock whose first reading meets the limit): the crawl
then stops at that first checkpoint — no URL is visited, zero fetches are
performed, no record is produced, and the crawl returns normally. -/
theorem c6_expired_at_entry (m : List (String × PageData)) (tl : Nat)
    (clock : Nat → Nat) (seed : String) (h : 1000 * tl ≤ clock 0) :
    (runCrawl m tl clock seed).1.allData = [] ∧
    fetchedUrls (runCrawl m tl clock seed).1.trace = [] ∧
    (runCrawl m tl clock seed).1.visited = [] ∧
    (runCrawl m tl clock seed).2 = none := by
  have hfb : fuelBound m = ((m.map (fun p => p.2.links.length + 2)).sum + 1) + 1 := rfl
  have hd : deadlineCheck tl (clock 0) = true := decide_eq_true h
  unfold runCrawl
  rw [hfb]
  simp [crawlGo, initState, hd]

theorem c6_expired_at_entry_witness :
    (runCrawl [] 0 (fun _ => 0) "a").1.allData = [] ∧
    fetchedUrls (runCrawl [] 0 (fun _ => 0) "a").1.trace = [] ∧
    (runCrawl [] 0 (fun _ => 0) "a").1.visited = [] ∧
    (runCrawl [] 0 (fun _ => 0) "a").2 = none :=
  c6_expired_at_entry [] 0 (fun _ => 0) "a" (by decide)

theorem crawlGo_fetchFail_last (m : List (String × PageData)) (tl : Nat) (clock : Nat → Nat)
    (u : String) :
    ∀ fuel mode s, (crawlGo m tl clock fuel mode s).2 = some (CrawlErr.fetchFail u) →
      ∃ t, (crawlGo m tl clock fuel mode s).1.trace = t ++ [CrawlEv.fetch u] := by
  intro fuel
  induction fuel with
  | zero =>
    intro mode s h
    simp [crawlGo] at h
  | succ n ih =>
    intro mode s h
    match mode with
    | CrawlMode.page url =>
      simp only [crawlGo] at h ⊢
      by_cases hv : url ∈ s.visited
      · simp [hv] at h
      · by_cases hd : deadlineCheck tl (clock s.tick) = true
        · simp [hv, hd] at h
        · rcases hm : m.lookup url with _ | pd
          · simp only [if_neg hv, if_neg hd, hm] at h ⊢
            simp only [Option.some.injEq, CrawlErr.fetchFail.injEq] at h
            subst h
            exact ⟨_, rfl⟩
          · simp only [if_neg hv, if_neg hd, hm] at h ⊢
            exact ih _ _ h
    | CrawlMode.links url [] =>
      simp [crawlGo] at h
    | CrawlMode.links url (link :: rest) =>
      simp only [crawlGo] at h ⊢
      by_cases hd : deadlineCheck tl (clock s.tick) = true
      · simp [hd] at h
      · by_cases hs : strStartsWith link url = true
        · simp only [if_neg hd, if_pos hs] at h ⊢
          rcases heq : crawlGo m tl clock n (CrawlMode.page link)
            { visited := s.visited, allData := s.allData,
              trace := s.trace ++ [CrawlEv.check (clock s.tick) (deadlineCheck tl (clock s.tick))] ++
                [CrawlEv.invoke url link],
              tick := s.tick + 1 } with ⟨s', e'⟩
          rw [heq] at h
          rcases e' with _ | e'
          · exact ih _ _ h
          · have he : e' = CrawlErr.fetchFail u := Option.some.inj h
            subst he
            have := ih (CrawlMode.page link)
              { visited := s.visited, allData := s.allData,
                trace := s.trace ++ [CrawlEv.check (clock s.tick) (deadlineCheck tl (clock s.tick))] ++
                  [CrawlEv.invoke url link],
                tick := s.tick + 1 }
            rw [heq] at this
            exact this rfl
        · simp only [if_neg hd, if_neg hs] at h ⊢
          exact ih _ _ h

/-- Claim C2, counterexample: seed `"a"` links to `"ab"` then `"ac"`; the
fetch of `"ab"` fails.  Contrary to the claim, the failure is not recovered:
sibling `"ac"` (in scope: it extends the parent URL) is never fetched, and
`scrapperFunc` surfaces the error instead of returning the crawl result. -/
theorem c2_counterexample :
    scrapperFunc [("a", ⟨["ab", "ac"], [], "", ""⟩), ("ac", ⟨[], [], "", ""⟩)]
        1 (fun _ => 0) "a" = Except.error (CrawlErr.fetchFail "ab") ∧
    strStartsWith "ac" "a" = true ∧
    CrawlEv.invoke "a" "ab" ∈
      (runCrawl [("a", ⟨["ab", "ac"], [], "", ""⟩), ("ac", ⟨[], [], "", ""⟩)]
        1 (fun _ => 0) "a").1.trace ∧
    CrawlEv.fetch "ac" ∉
      (runCrawl [("a", ⟨["ab", "ac"], [], "", ""⟩), ("ac", ⟨[], [], "", ""⟩)]
        1 (fun _ => 0) "a").1.trace :=
  ⟨rfl, by decide, by decide, by decide⟩

/-- Claim C2 as amended: a fetch/extract failure is *not* caught inside
`crawl`; it aborts the crawl at that point — the failing fetch is the last
traversal event, so no sibling link of any ancestor page is visited
afterwards — and `scrapperFunc` rethrows the error to its caller instead of
returning the collected data. -/
theorem c2_fetch_failure_aborts (m : List (String × PageData)) (tl : Nat)
    (clock : Nat → Nat) (seed u : String)
    (h : scrapperFunc m tl clock seed = Except.error (CrawlErr.fetchFail u)) :
    ∃ t, (runCrawl m tl clock seed).1.trace = t ++ [CrawlEv.fetch u] := by
  unfold scrapperFunc at h
  rcases hr : runCrawl m tl clock seed with ⟨s, e⟩
  rw [hr] at h
  rcases e with _ | e
  · simp at h
  · simp only [Except.error.injEq] at h
    subst h
    have := crawlGo_fetchFail_last m tl clock u (fuelBound m) (CrawlMode.page seed) initState
    rw [show crawlGo m tl clock (fuelBound m) (CrawlMode.page seed) initState =
      runCrawl m tl clock seed from rfl, hr] at this
    exact this rfl

theorem c2_fetch_failure_aborts_witness :
    ∃ t, (runCrawl [("a", ⟨["ab", "ac"], [], "", ""⟩), ("ac", ⟨[], [], "", ""⟩)]
        1 (fun _ => 0) "a").1.trace = t ++ [CrawlEv.fetch "ab"] :=
  c2_fetch_failure_aborts _ 1 (fun _ => 0) "a" "ab" rfl

@[simp] theorem invokesFrom_nil (u : String) : invokesFrom u [] = [] := rfl

@[simp] theorem invokesFrom_append (u : String) (a b : List CrawlEv) :
    invokesFrom u (a ++ b) = invokesFrom u a ++ invokesFrom u b := by
  simp [invokesFrom]

@[simp] theorem invokesFrom_cons_check (u : String) (e : Nat) (x : Bool) (l : List CrawlEv) :
    invokesFrom u (CrawlEv.check e x :: l) = invokesFrom u l := rfl

@[simp] theorem invokesFrom_cons_fetch (u w : String) (l : List CrawlEv) :
    invokesFrom u (CrawlEv.fetch w :: l) = invokesFrom u l := rfl

@[simp] theorem invokesFrom_cons_invoke (u p q : String) (l : List CrawlEv) :
    invokesFrom u (CrawlEv.invoke p q :: l) =
      if p = u then q :: invokesFrom u l else invokesFrom u l := by
  by_cases h : p = u
  · simp [invokesFrom, List.filterMap_cons, h]
  · simp [invokesFrom, List.filterMap_cons, h]

theorem crawlGo_invokesFrom_unchanged (m : List (String × PageData)) (tl : Nat)
    (clock : Nat → Nat) (u : String) :
    ∀ fuel mode s, u ∈ s.visited →
      (match mode with
       | CrawlMode.page _ => True
       | CrawlMode.links v _ => v ≠ u) →
      invokesFrom u (crawlGo m tl clock fuel mode s).1.trace = invokesFrom u s.trace := by
  intro fuel
  induction fuel with
  | zero =>
    intro mode s hu hm
    rfl
  | succ n ih =>
    intro mode s hu hm
    match mode with
    | CrawlMode.page url =>
      simp only [crawlGo]
      by_cases hv : url ∈ s.visited
      · rw [if_pos hv]
      · rw [if_neg hv]
        by_cases hd : deadlineCheck tl (clock s.tick) = true
        · rw [if_pos hd]
          simp
        · rw [if_neg hd]
          rcases hlk : m.lookup url with _ | pd
          · simp
          · have hne : url ≠ u := fun h => hv (h ▸ hu)
            rw [ih (CrawlMode.links url pd.links) _ (List.mem_cons_of_mem _ hu) hne]
            simp
    | CrawlMode.links url [] =>
      rfl
    | CrawlMode.links url (link :: rest) =>
      have hvne : url ≠ u := hm
      simp only [crawlGo]
      by_cases hd : deadlineCheck tl (clock s.tick) = true
      · rw [if_pos hd]
        simp
      · rw [if_neg hd]
        by_cases hs : strStartsWith link url = true
        · rw [if_pos hs]
          rcases heq : crawlGo m tl clock n (CrawlMode.page link)
            { visited := s.visited, allData := s.allData,
              trace := s.trace ++ [CrawlEv.check (clock s.tick) (deadlineCheck tl (clock s.tick))] ++
                [CrawlEv.invoke url link],
              tick := s.tick + 1 } with ⟨s', e'⟩
          have hchild := ih (CrawlMode.page link)
            { visited := s.visited, allData := s.allData,
              trace := s.trace ++ [CrawlEv.check (clock s.tick) (deadlineCheck tl (clock s.tick))] ++
                [CrawlEv.invoke url link],
              tick := s.tick + 1 } hu trivial
          rw [heq] at hchild
          have hstep : invokesFrom u s'.trace = invokesFrom u s.trace := by
            rw [hchild]
            simp [if_neg hvne]
          rcases e' with _ | e'
          · have hmem : u ∈ s'.visited := by
              have hmono := (crawlGo_mono m tl clock n (CrawlMode.page link)
                { visited := s.visited, allData := s.allData,
                  trace := s.trace ++ [CrawlEv.check (clock s.tick) (deadlineCheck tl (clock s.tick))] ++
                    [CrawlEv.invoke url link],
                  tick := s.tick + 1 }).2.2
              rw [heq] at hmono
              exact hmono.subset hu
            rw [ih (CrawlMode.links url rest) s' hmem hvne]
            exact hstep
          · exact hstep
        · rw [if_neg hs]
          rw [ih (CrawlMode.links url rest)
            { visited := s.visited, allData := s.allData,
              trace := s.trace ++ [CrawlEv.check (clock s.tick) (deadlineCheck tl (clock s.tick))],
              tick := s.tick + 1 } hu hvne]
          simp

theorem crawlGo_links_invokes (m : List (String × PageData)) (tl : Nat)
    (clock : Nat → Nat) (hclk : ∀ k, deadlineCheck tl (clock k) = false) (v : String) :
    ∀ fuel links s, v ∈ s.visited →
      (crawlGo m tl clock fuel (CrawlMode.links v links) s).2 = none →
      invokesFrom v (crawlGo m tl clock fuel (CrawlMode.links v links) s).1.trace =
        invokesFrom v s.trace ++ links.filter (fun l => strStartsWith l v) := by
  intro fuel
  induction fuel with
  | zero =>
    intro links s hv hok
    simp [crawlGo] at hok
  | succ n ih =>
    intro links s hv hok
    match links with
    | [] =>
      simp [crawlGo]
    | link :: rest =>
      simp only [crawlGo, hclk s.tick, Bool.false_eq_true, if_false] at hok ⊢
      by_cases hs : strStartsWith link v = true
      · rw [if_pos hs] at hok ⊢
        rcases heq : crawlGo m tl clock n (CrawlMode.page link)
          { visited := s.visited, allData := s.allData,
            trace := s.trace ++ [CrawlEv.check (clock s.tick) false] ++ [CrawlEv.invoke v link],
            tick := s.tick + 1 } with ⟨s', e'⟩
        rw [heq] at hok
        have hchild := crawlGo_invokesFrom_unchanged m tl clock v n (CrawlMode.page link)
          { visited := s.visited, allData := s.allData,
            trace := s.trace ++ [CrawlEv.check (clock s.tick) false] ++ [CrawlEv.invoke v link],
            tick := s.tick + 1 } hv trivial
        rw [heq] at hchild
        have hstep : invokesFrom v s'.trace = invokesFrom v s.trace ++ [link] := by
          rw [hchild]
          simp
        rcases e' with _ | e'
        · have hmem : v ∈ s'.visited := by
            have hmono := (crawlGo_mono m tl clock n (CrawlMode.page link)
              { visited := s.visited, allData := s.allData,
                trace := s.trace ++ [CrawlEv.check (clock s.tick) false] ++ [CrawlEv.invoke v link],
                tick := s.tick + 1 }).2.2
            rw [heq] at hmono
            exact hmono.subset hv
          show invokesFrom v (crawlGo m tl clock n (CrawlMode.links v rest) s').1.trace =
            invokesFrom v s.trace ++ List.filter (fun l => strStartsWith l v) (link :: rest)
          rw [ih rest s' hmem hok, hstep]
          simp [List.filter_cons, hs]
        · exact Option.noConfusion hok
      · rw [if_neg hs] at hok ⊢
        rw [ih rest
          { visited := s.visited, allData := s.allData,
            trace := s.trace ++ [CrawlEv.check (clock s.tick) false],
            tick := s.tick + 1 } hv hok]
        simp [List.filter_cons, hs]

/-- Claim C1, counterexample: seed `"a"`, page `"a"` links to `"ab"`, page
`"ab"` links to `"ac"`.  `"ac"` has the original seed as a literal prefix
and is discovered on the reached page `"ab"`, yet `crawl` is never invoked
on it: the source guard compares against the *current* page's URL `"ab"`
(the inner `crawl(url)` parameter shadows the seed), and
`"ac".startsWith("ab")` is false.  The crawl completes normally. -/
theorem c1_counterexample :
    strStartsWith "ac" "a" = true ∧
    CrawlEv.fetch "ab" ∈
      (runCrawl [("a", ⟨["ab"], [], "", ""⟩), ("ab", ⟨["ac"], [], "", ""⟩),
        ("ac", ⟨[], [], "", ""⟩)] 1 (fun _ => 0) "a").1.trace ∧
    invokesFrom "ab"
      (runCrawl [("a", ⟨["ab"], [], "", ""⟩), ("ab", ⟨["ac"], [], "", ""⟩),
        ("ac", ⟨[], [], "", ""⟩)] 1 (fun _ => 0) "a").1.trace = [] ∧
    (runCrawl [("a", ⟨["ab"], [], "", ""⟩), ("ab", ⟨["ac"], [], "", ""⟩),
      ("ac", ⟨[], [], "", ""⟩)] 1 (fun _ => 0) "a").2 = none := by
  refine ⟨by decide, by decide, by decide, by decide⟩

/-- Claim C1 as amended: during the link loop of a page `v`, provided no
checkpoint observes deadline expiry and the loop completes without error,
`crawl` is invoked on exactly those discovered links having the *current
page's URL* `v` (not the original seed) as a literal prefix, in discovery
order; and, in particular, on the seed page itself — where current URL and
seed coincide — the spec's example holds: of
`["https://x.com/a/b", "https://x.com/other", "https://y.com/a"]` exactly
the first is followed. -/
theorem c1_scope_rule_amended :
    (∀ (m : List (String × PageData)) (tl : Nat) (clock : Nat → Nat) (fuel : Nat)
       (links : List String) (s : CrawlState) (v : String),
       (∀ k, clock k < 1000 * tl) → v ∈ s.visited →
       (crawlGo m tl clock fuel (CrawlMode.links v links) s).2 = none →
       invokesFrom v (crawlGo m tl clock fuel (CrawlMode.links v links) s).1.trace =
         invokesFrom v s.trace ++ links.filter (fun l => strStartsWith l v)) ∧
    invokesFrom "https://x.com/a"
      (runCrawl [("https://x.com/a",
          ⟨["https://x.com/a/b", "https://x.com/other", "https://y.com/a"], [], "", ""⟩),
        ("https://x.com/a/b", ⟨[], [], "", ""⟩)] 1 (fun _ => 0) "https://x.com/a").1.trace
      = ["https://x.com/a/b"] := by
  constructor
  · intro m tl clock fuel links s v hclk hv hok
    exact crawlGo_links_invokes m tl clock
      (fun k => decide_eq_false (Nat.not_le.mpr (hclk k))) v fuel links s hv hok
  · decide

theorem c1_scope_rule_amended_witness :
    invokesFrom "p" ((crawlGo [("pq", ⟨[], [], "", ""⟩)] 1 (fun _ => 0) 5
        (CrawlMode.links "p" ["pq", "zz"])
        { visited := ["p"], allData := [], trace := [], tick := 0 }).1.trace)
      = ["pq"] := by
  have h := c1_scope_rule_amended.1 [("pq", ⟨[], [], "", ""⟩)] 1 (fun _ => 0) 5 ["pq", "zz"]
    { visited := ["p"], allData := [], trace := [], tick := 0 } "p"
    (fun k => by norm_num) (by decide) (by decide)
  rw [h]
  decide

def isFetchEv : CrawlEv → Bool
  | CrawlEv.fetch _ => true
  | _ => false

/-- An immediately-preceding checkpoint that observed the deadline as not
yet expired. -/
def goodCheck : Option CrawlEv → Bool
  | some (CrawlEv.check _ false) => true
  | _ => false

/-- Every fetch event is immediately preceded by a checkpoint event that
observed the deadline unexpired (`prev` is the event before the list). -/
def fetchesGuarded (prev : Option CrawlEv) : List CrawlEv → Bool
  | [] => true
  | ev :: rest => (!isFetchEv ev || goodCheck prev) && fetchesGuarded (some ev) rest

def isExpiredCheck : CrawlEv → Bool
  | CrawlEv.check _ true => true
  | _ => false

def anyExpired (l : List CrawlEv) : Bool :=
  l.any isExpiredCheck

/-- After the first checkpoint that observed expiry, no fetch occurs. -/
def noFetchAfterExpiry : List CrawlEv → Bool
  | [] => true
  | ev :: rest =>
    if isExpiredCheck ev then rest.all (fun e => !isFetchEv e) else noFetchAfterExpiry rest

def lastEv (p : Option CrawlEv) : List CrawlEv → Option CrawlEv
  | [] => p
  | ev :: rest => lastEv (some ev) rest

theorem fetchesGuarded_append (p : Option CrawlEv) (a b : List CrawlEv) :
    fetchesGuarded p (a ++ b) = (fetchesGuarded p a && fetchesGuarded (lastEv p a) b) := by
  induction a generalizing p with
  | nil => simp [fetchesGuarded, lastEv]
  | cons ev rest ih =>
    simp [fetchesGuarded, lastEv, ih, Bool.and_assoc]

@[simp] theorem anyExpired_nil : anyExpired [] = false := rfl

@[simp] theorem anyExpired_append (a b : List CrawlEv) :
    anyExpired (a ++ b) = (anyExpired a || anyExpired b) := by
  simp [anyExpired]

@[simp] theorem anyExpired_cons (ev : CrawlEv) (l : List CrawlEv) :
    anyExpired (ev :: l) = (isExpiredCheck ev || anyExpired l) := by
  simp [anyExpired]

theorem noFetchAfterExpiry_append (a b : List CrawlEv)
    (ha : noFetchAfterExpiry a = true) (hb : noFetchAfterExpiry b = true)
    (hab : anyExpired a = true → b.all (fun e => !isFetchEv e) = true) :
    noFetchAfterExpiry (a ++ b) = true := by
  induction a with
  | nil => simpa using hb
  | cons ev rest ih =>
    simp only [List.cons_append, noFetchAfterExpiry] at ha ⊢
    by_cases he : isExpiredCheck ev = true
    · rw [if_pos he] at ha ⊢
      simp only [List.append_eq]
      rw [List.all_append, ha, hab (by simp [he])]
      rfl
    · rw [if_neg he] at ha ⊢
      exact ih ha (fun h => hab (by simp [anyExpired] at h ⊢; exact Or.inr h))

theorem deadlineCheck_le {tl e : Nat} (h : deadlineCheck tl e = true) : 1000 * tl ≤ e :=
  of_decide_eq_true h

@[simp] theorem lastEv_append_single (p : Option CrawlEv) (a : List CrawlEv) (ev : CrawlEv) :
    lastEv p (a ++ [ev]) = some ev := by
  induction a generalizing p with
  | nil => rfl
  | cons e rest ih => simpa [lastEv] using ih (some e)

theorem crawlGo_fetchesGuarded (m : List (String × PageData)) (tl : Nat) (clock : Nat → Nat) :
    ∀ fuel mode s p, fetchesGuarded p s.trace = true →
      fetchesGuarded p (crawlGo m tl clock fuel mode s).1.trace = true := by
  intro fuel
  induction fuel with
  | zero =>
    intro mode s p h
    exact h
  | succ n ih =>
    intro mode s p h
    match mode with
    | CrawlMode.page url =>
      simp only [crawlGo]
      by_cases hv : url ∈ s.visited
      · rw [if_pos hv]
        exact h
      · rw [if_neg hv]
        by_cases hd : deadlineCheck tl (clock s.tick) = true
        · rw [if_pos hd]
          rw [fetchesGuarded_append, h]
          simp [fetchesGuarded, isFetchEv]
        · rw [if_neg hd]
          have hd' : deadlineCheck tl (clock s.tick) = false := by simpa using hd
          rcases hlk : m.lookup url with _ | pd
          · rw [fetchesGuarded_append, fetchesGuarded_append, h, hd']
            simp [fetchesGuarded, isFetchEv, goodCheck, lastEv]
          · apply ih
            rw [fetchesGuarded_append, fetchesGuarded_append, h, hd']
            simp [fetchesGuarded, isFetchEv, goodCheck, lastEv]
    | CrawlMode.links url [] =>
      exact h
    | CrawlMode.links url (link :: rest) =>
      simp only [crawlGo]
      by_cases hd : deadlineCheck tl (clock s.tick) = true
      · rw [if_pos hd]
        rw [fetchesGuarded_append, h]
        simp [fetchesGuarded, isFetchEv]
      · rw [if_neg hd]
        have hd' : deadlineCheck tl (clock s.tick) = false := by simpa using hd
        by_cases hs : strStartsWith link url = true
        · rw [if_pos hs]
          rcases heq : crawlGo m tl clock n (CrawlMode.page link)
            { visited := s.visited, allData := s.allData,
              trace := s.trace ++ [CrawlEv.check (clock s.tick) (deadlineCheck tl (clock s.tick))] ++
                [CrawlEv.invoke url link],
              tick := s.tick + 1 } with ⟨s', e'⟩
          have hchild := ih (CrawlMode.page link)
            { visited := s.visited, allData := s.allData,
              trace := s.trace ++ [CrawlEv.check (clock s.tick) (deadlineCheck tl (clock s.tick))] ++
                [CrawlEv.invoke url link],
              tick := s.tick + 1 } p
            (by
              rw [fetchesGuarded_append, fetchesGuarded_append, h, hd']
              simp [fetchesGuarded, isFetchEv, goodCheck, lastEv])
          rw [heq] at hchild
          rcases e' with _ | e'
          · show fetchesGuarded p (crawlGo m tl clock n (CrawlMode.links url rest) s').1.trace = true
            exact ih (CrawlMode.links url rest) s' p hchild
          · exact hchild
        · rw [if_neg hs]
          apply ih
          rw [fetchesGuarded_append, h, hd']
          simp [fetchesGuarded, isFetchEv]

theorem crawlGo_noFetchAfterExpiry (m : List (String × PageData)) (tl : Nat)
    (clock : Nat → Nat) (hmono : ∀ i j, i ≤ j → clock i ≤ clock j) :
    ∀ fuel mode s,
      noFetchAfterExpiry s.trace = true →
      (anyExpired s.trace = true → 1000 * tl ≤ clock s.tick) →
      noFetchAfterExpiry (crawlGo m tl clock fuel mode s).1.trace = true ∧
      (anyExpired (crawlGo m tl clock fuel mode s).1.trace = true →
        1000 * tl ≤ clock (crawlGo m tl clock fuel mode s).1.tick) := by
  intro fuel
  induction fuel with
  | zero =>
    intro mode s h1 h2
    exact ⟨h1, h2⟩
  | succ n ih =>
    intro mode s h1 h2
    match mode with
    | CrawlMode.page url =>
      simp only [crawlGo]
      by_cases hv : url ∈ s.visited
      · rw [if_pos hv]
        exact ⟨h1, h2⟩
      · rw [if_neg hv]
        by_cases hd : deadlineCheck tl (clock s.tick) = true
        · rw [if_pos hd, hd]
          constructor
          · exact noFetchAfterExpiry_append _ _ h1 (by simp [noFetchAfterExpiry, isExpiredCheck])
              (fun _ => by simp [isFetchEv])
          · intro _
            exact (deadlineCheck_le hd).trans (hmono s.tick (s.tick + 1) (Nat.le_succ _))
        · rw [if_neg hd]
          have hd' : deadlineCheck tl (clock s.tick) = false := by simpa using hd
          have hae : anyExpired s.trace = false := by
            by_contra hc
            have : anyExpired s.trace = true := by simpa using hc
            exact hd (decide_eq_true (h2 this))
          rw [hd']
          have hstep1 : ∀ ev2 : CrawlEv, isExpiredCheck ev2 = false →
              noFetchAfterExpiry (s.trace ++ [CrawlEv.check (clock s.tick) false] ++ [ev2]) = true := by
            intro ev2 hev2
            rw [List.append_assoc]
            exact noFetchAfterExpiry_append _ _ h1
              (by simp [noFetchAfterExpiry, isExpiredCheck, hev2])
              (fun hc => absurd hc (by simp [hae]))
          rcases hlk : m.lookup url with _ | pd
          · constructor
            · exact hstep1 (CrawlEv.fetch url) rfl
            · intro hc
              simp [hae, isExpiredCheck] at hc
          · apply ih
            · exact hstep1 (CrawlEv.fetch url) rfl
            · intro hc
              simp [hae, isExpiredCheck] at hc
    | CrawlMode.links url [] =>
      exact ⟨h1, h2⟩
    | CrawlMode.links url (link :: rest) =>
      simp only [crawlGo]
      by_cases hd : deadlineCheck tl (clock s.tick) = true
      · rw [if_pos hd, hd]
        constructor
        · exact noFetchAfterExpiry_append _ _ h1 (by simp [noFetchAfterExpiry, isExpiredCheck])
            (fun _ => by simp [isFetchEv])
        · intro _
          exact (deadlineCheck_le hd).trans (hmono s.tick (s.tick + 1) (Nat.le_succ _))
      · rw [if_neg hd]
        have hd' : deadlineCheck tl (clock s.tick) = false := by simpa using hd
        have hae : anyExpired s.trace = false := by
          by_contra hc
          have : anyExpired s.trace = true := by simpa using hc
          exact hd (decide_eq_true (h2 this))
        rw [hd']
        by_cases hs : strStartsWith link url = true
        · rw [if_pos hs]
          have hpre1 : noFetchAfterExpiry
              (s.trace ++ [CrawlEv.check (clock s.tick) false] ++ [CrawlEv.invoke url link]) = true := by
            rw [List.append_assoc]
            exact noFetchAfterExpiry_append _ _ h1
              (by simp [noFetchAfterExpiry, isExpiredCheck, isFetchEv])
              (fun hc => absurd hc (by simp [hae]))
          have hpre2 : anyExpired
              (s.trace ++ [CrawlEv.check (clock s.tick) false] ++ [CrawlEv.invoke url link]) = true →
              1000 * tl ≤ clock (s.tick + 1) := by
            intro hc
            simp [hae, isExpiredCheck] at hc
          rcases heq : crawlGo m tl clock n (CrawlMode.page link)
            { visited := s.visited, allData := s.allData,
              trace := s.trace ++ [CrawlEv.check (clock s.tick) false] ++ [CrawlEv.invoke url link],
              tick := s.tick + 1 } with ⟨s', e'⟩
          have hchild := ih (CrawlMode.page link)
            { visited := s.visited, allData := s.allData,
              trace := s.trace ++ [CrawlEv.check (clock s.tick) false] ++ [CrawlEv.invoke url link],
              tick := s.tick + 1 } hpre1 hpre2
          rw [heq] at hchild
          rcases e' with _ | e'
          · show noFetchAfterExpiry (crawlGo m tl clock n (CrawlMode.links url rest) s').1.trace = true ∧
              (anyExpired (crawlGo m tl clock n (CrawlMode.links url rest) s').1.trace = true →
                1000 * tl ≤ clock (crawlGo m tl clock n (CrawlMode.links url rest) s').1.tick)
            exact ih (CrawlMode.links url rest) s' hchild.1 hchild.2
          · exact hchild
        · rw [if_neg hs]
          apply ih
          · exact noFetchAfterExpiry_append _ _ h1
              (by simp [noFetchAfterExpiry, isExpiredCheck])
              (fun hc => absurd hc (by simp [hae]))
          · intro hc
            simp [hae, isExpiredCheck] at hc

/-- Claim C8: deadline expiration is advisory and cooperative.  In every
crawl trace, (i) each fetch event is immediately preceded by a checkpoint
event that observed the deadline unexpired (nothing but the visited-set
mark separates checkpoint from fetch, and a fetch is never preempted: it is
an atomic step of the model between checkpoints), and (ii) with a monotone
clock, once any checkpoint observes expiry no further fetch is initiated
anywhere in the traversal — the next step and all remaining sibling links
are skipped. -/
theorem c8_advisory_deadline (m : List (String × PageData)) (tl : Nat)
    (clock : Nat → Nat) (seed : String)
    (hmono : ∀ i j, i ≤ j → clock i ≤ clock j) :
    fetchesGuarded none (runCrawl m tl clock seed).1.trace = true ∧
    noFetchAfterExpiry (runCrawl m tl clock seed).1.trace = true := by
  constructor
  · exact crawlGo_fetchesGuarded m tl clock (fuelBound m) (CrawlMode.page seed) initState none rfl
  · exact (crawlGo_noFetchAfterExpiry m tl clock hmono (fuelBound m) (CrawlMode.page seed)
      initState rfl (by intro h; simp [initState, anyExpired] at h)).1

theorem c8_advisory_deadline_witness :
    fetchesGuarded none (runCrawl
      [("a", ⟨["ab", "ac"], [], "", ""⟩), ("ab", ⟨[], [], "", ""⟩), ("ac", ⟨[], [], "", ""⟩)]
      1 (fun n => 600 * n) "a").1.trace = true ∧
    noFetchAfterExpiry (runCrawl
      [("a", ⟨["ab", "ac"], [], "", ""⟩), ("ab", ⟨[], [], "", ""⟩), ("ac", ⟨[], [], "", ""⟩)]
      1 (fun n => 600 * n) "a").1.trace = true :=
  c8_advisory_deadline _ 1 (fun n => 600 * n) "a" (fun i j h => by show 600 * i ≤ 600 * j; omega)

/-- Reference definition, following the spec's words: the depth-first
pre-order of first visitation.  A page is emitted before its children; a
followed link's entire subtree is traversed before the next sibling link;
a link is followed when it extends the current page's URL; an already
visited page (or one that cannot be fetched) emits nothing. -/
def dfsPreorder (m : List (String × PageData)) :
    Nat → CrawlMode → List String → List String × List String
  | 0, _, vis => ([], vis)
  | fuel+1, CrawlMode.page u, vis =>
    if u ∈ vis then ([], vis)
    else
      match m.lookup u with
      | none => ([], u :: vis)
      | some pd =>
        let r := dfsPreorder m fuel (CrawlMode.links u pd.links) (u :: vis)
        (u :: r.1, r.2)
  | _+1, CrawlMode.links _ [], vis => ([], vis)
  | fuel+1, CrawlMode.links u (l :: rest), vis =>
    if strStartsWith l u then
      let r1 := dfsPreorder m fuel (CrawlMode.page l) vis
      let r2 := dfsPreorder m fuel (CrawlMode.links u rest) r1.2
      (r1.1 ++ r2.1, r2.2)
    else dfsPreorder m fuel (CrawlMode.links u rest) vis

theorem crawlGo_dfs (m : List (String × PageData)) (tl : Nat) (clock : Nat → Nat)
    (hclk : ∀ k, deadlineCheck tl (clock k) = false) :
    ∀ fuel mode s,
      (crawlGo m tl clock fuel mode s).2 = none →
      recordUrls (crawlGo m tl clock fuel mode s).1.allData =
        recordUrls s.allData ++ (dfsPreorder m fuel mode s.visited).1 ∧
      (crawlGo m tl clock fuel mode s).1.visited = (dfsPreorder m fuel mode s.visited).2 := by
  intro fuel
  induction fuel with
  | zero =>
    intro mode s hok
    simp [crawlGo] at hok
  | succ n ih =>
    intro mode s hok
    match mode with
    | CrawlMode.page url =>
      by_cases hv : url ∈ s.visited
      · simp only [crawlGo, dfsPreorder, if_pos hv] at hok ⊢
        simp
      · rcases hlk : m.lookup url with _ | pd
        · simp only [crawlGo, dfsPreorder, if_neg hv, hclk s.tick, Bool.false_eq_true,
            if_false, hlk] at hok
          exact Option.noConfusion hok
        · simp only [crawlGo, dfsPreorder, if_neg hv, hclk s.tick, Bool.false_eq_true,
            if_false, hlk] at hok ⊢
          have h := ih (CrawlMode.links url pd.links)
            { visited := url :: s.visited, allData := s.allData ++ [mkRecord url pd],
              trace := s.trace ++ [CrawlEv.check (clock s.tick) false] ++ [CrawlEv.fetch url],
              tick := s.tick + 1 } hok
          simp only [recordUrls_append, recordUrls_cons, recordUrls_nil, mkRecord_url,
            List.append_assoc, List.singleton_append] at h ⊢
          exact h
    | CrawlMode.links url [] =>
      simp [crawlGo, dfsPreorder]
    | CrawlMode.links url (link :: rest) =>
      by_cases hs : strStartsWith link url = true
      · simp only [crawlGo, dfsPreorder, hclk s.tick, Bool.false_eq_true, if_false,
          if_pos hs] at hok ⊢
        rcases heq : crawlGo m tl clock n (CrawlMode.page link)
          { visited := s.visited, allData := s.allData,
            trace := s.trace ++ [CrawlEv.check (clock s.tick) false] ++ [CrawlEv.invoke url link],
            tick := s.tick + 1 } with ⟨s', e'⟩
        rw [heq] at hok
        rcases e' with _ | e'
        · have hchild := ih (CrawlMode.page link)
            { visited := s.visited, allData := s.allData,
              trace := s.trace ++ [CrawlEv.check (clock s.tick) false] ++ [CrawlEv.invoke url link],
              tick := s.tick + 1 } (by rw [heq])
          rw [heq] at hchild
          have hrest := ih (CrawlMode.links url rest) s' hok
          show recordUrls (crawlGo m tl clock n (CrawlMode.links url rest) s').1.allData = _ ∧
            (crawlGo m tl clock n (CrawlMode.links url rest) s').1.visited = _
          rw [hrest.1, hrest.2, hchild.1, hchild.2]
          simp
        · exact absurd hok (by simp)
      · simp only [crawlGo, dfsPreorder, hclk s.tick, Bool.false_eq_true, if_false,
          if_neg hs] at hok ⊢
        exact ih (CrawlMode.links url rest)
          { visited := s.visited, allData := s.allData,
            trace := s.trace ++ [CrawlEv.check (clock s.tick) false],
            tick := s.tick + 1 } hok

/-- Claim C4: with a deterministic fetcher (the finite map `m`) and a
deadline that never expires at any checkpoint, a crawl that completes
without error produces records in exactly the depth-first pre-order of
first visitation: each page before its children, a followed link's entire
subtree before the next sibling link. -/
theorem c4_dfs_preorder (m : List (String × PageData)) (tl : Nat) (clock : Nat → Nat)
    (seed : String) (hclk : ∀ k, clock k < 1000 * tl)
    (hok : (runCrawl m tl clock seed).2 = none) :
    recordUrls (runCrawl m tl clock seed).1.allData =
      (dfsPreorder m (fuelBound m) (CrawlMode.page seed) []).1 := by
  have h := crawlGo_dfs m tl clock
    (fun k => decide_eq_false (Nat.not_le.mpr (hclk k)))
    (fuelBound m) (CrawlMode.page seed) initState hok
  simpa [initState] using h.1

theorem c4_dfs_preorder_witness :
    recordUrls (runCrawl
      [("a", ⟨["ab", "ac"], [], "", ""⟩), ("ab", ⟨["abd"], [], "", ""⟩),
       ("abd", ⟨[], [], "", ""⟩), ("ac", ⟨[], [], "", ""⟩)]
      1 (fun _ => 0) "a").1.allData =
      (dfsPreorder
        [("a", ⟨["ab", "ac"], [], "", ""⟩), ("ab", ⟨["abd"], [], "", ""⟩),
         ("abd", ⟨[], [], "", ""⟩), ("ac", ⟨[], [], "", ""⟩)]
        (fuelBound
          [("a", ⟨["ab", "ac"], [], "", ""⟩), ("ab", ⟨["abd"], [], "", ""⟩),
           ("abd", ⟨[], [], "", ""⟩), ("ac", ⟨[], [], "", ""⟩)])
        (CrawlMode.page "a") []).1 ∧
    recordUrls (runCrawl
      [("a", ⟨["ab", "ac"], [], "", ""⟩), ("ab", ⟨["abd"], [], "", ""⟩),
       ("abd", ⟨[], [], "", ""⟩), ("ac", ⟨[], [], "", ""⟩)]
      1 (fun _ => 0) "a").1.allData = ["a", "ab", "abd", "ac"] :=
  ⟨c4_dfs_preorder _ 1 (fun _ => 0) "a" (fun k => by norm_num) (by decide), by decide⟩

/-- One step of JS `Set` construction: insertion appends a not-yet-present
element at the end, so iteration order is first-occurrence order. -/
def setInsert (l : List String) (x : String) : List String :=
  if x ∈ l then l else l ++ [x]

/-- JS `Array.from(new Set(xs))`. -/
def jsSetOfList (xs : List String) : List String :=
  xs.foldl setInsert []

theorem foldl_setInsert_nodup : ∀ (l acc : List String), acc.Nodup →
    (List.foldl setInsert acc l).Nodup := by
  intro l
  induction l with
  | nil => intro acc h; exact h
  | cons a l ih =>
    intro acc h
    rw [List.foldl_cons]
    by_cases ha : a ∈ acc
    · rw [show setInsert acc a = acc from by simp [setInsert, ha]]
      exact ih acc h
    · rw [show setInsert acc a = acc ++ [a] from by simp [setInsert, ha]]
      exact ih (acc ++ [a]) (by simp [List.nodup_append, h, ha])

theorem foldl_setInsert_eq_self : ∀ (l acc : List String), (acc ++ l).Nodup →
    List.foldl setInsert acc l = acc ++ l := by
  intro l
  induction l with
  | nil => intro acc _; simp
  | cons a l ih =>
    intro acc h
    have ha : a ∉ acc := by
      intro hmem
      have hd := (List.nodup_append.mp h).2.2
      exact hd hmem (List.mem_cons_self a l)
    rw [List.foldl_cons, show setInsert acc a = acc ++ [a] from by simp [setInsert, ha],
      ih (acc ++ [a]) (by simpa using h)]
    simp

theorem foldl_setInsert_sublist : ∀ (l acc : List String),
    ∃ e, List.foldl setInsert acc l = acc ++ e ∧ List.Sublist e l := by
  intro l
  induction l with
  | nil => intro acc; exact ⟨[], by simp, List.Sublist.refl _⟩
  | cons a l ih =>
    intro acc
    rw [List.foldl_cons]
    by_cases ha : a ∈ acc
    · obtain ⟨e, he, hs⟩ := ih acc
      rw [show setInsert acc a = acc from by simp [setInsert, ha]]
      exact ⟨e, he, hs.cons _⟩
    · obtain ⟨e, he, hs⟩ := ih (acc ++ [a])
      rw [show setInsert acc a = acc ++ [a] from by simp [setInsert, ha]]
      refine ⟨a :: e, ?_, hs.cons₂ _⟩
      rw [he]
      simp

theorem foldl_setInsert_mem : ∀ (l acc : List String) (x : String),
    x ∈ List.foldl setInsert acc l ↔ x ∈ acc ∨ x ∈ l := by
  intro l
  induction l with
  | nil => intro acc x; simp
  | cons a l ih =>
    intro acc x
    rw [List.foldl_cons]
    by_cases ha : a ∈ acc
    · rw [show setInsert acc a = acc from by simp [setInsert, ha], ih]
      constructor
      · rintro (h | h)
        · exact Or.inl h
        · exact Or.inr (List.mem_cons_of_mem _ h)
      · rintro (h | h)
        · exact Or.inl h
        · rcases List.mem_cons.mp h with rfl | h
          · exact Or.inl ha
          · exact Or.inr h
    · rw [show setInsert acc a = acc ++ [a] from by simp [setInsert, ha], ih]
      simp only [List.mem_append, List.mem_singleton, List.mem_cons]
      tauto

theorem foldl_setInsert_cons_filter (x : String) : ∀ (l acc : List String),
    List.foldl setInsert (x :: acc) l =
      x :: List.foldl setInsert acc (l.filter (fun a => a ≠ x)) := by
  intro l
  induction l with
  | nil => intro acc; simp
  | cons a l ih =>
    intro acc
    rw [List.foldl_cons, List.filter_cons]
    by_cases hax : a = x
    · subst hax
      rw [show setInsert (a :: acc) a = a :: acc from by simp [setInsert]]
      rw [show (decide (a ≠ a)) = false from by simp]
      rw [if_neg (by simp)]
      exact ih acc
    · rw [if_pos (by simp [hax])]
      by_cases ha : a ∈ acc
      · rw [show setInsert (x :: acc) a = x :: acc from by
          simp [setInsert, List.mem_cons, ha]]
        rw [List.foldl_cons, show setInsert acc a = acc from by simp [setInsert, ha]]
        exact ih acc
      · have hnx : a ∉ x :: acc := by
          intro h
          rcases List.mem_cons.mp h with h | h
          · exact hax h
          · exact ha h
        rw [show setInsert (x :: acc) a = x :: (acc ++ [a]) from by
          simp [setInsert, hnx]]
        rw [List.foldl_cons, show setInsert acc a = acc ++ [a] from by simp [setInsert, ha]]
        exact ih (acc ++ [a])

theorem jsSetOfList_cons (x : String) (l : List String) :
    jsSetOfList (x :: l) = x :: jsSetOfList (l.filter (fun a => a ≠ x)) := by
  unfold jsSetOfList
  rw [List.foldl_cons, show setInsert [] x = [x] from by simp [setInsert]]
  exact foldl_setInsert_cons_filter x l []

/-- JS regex `\s` on the character classes the crawler meets (ASCII
whitespace). -/
def isWs (c : Char) : Bool :=
  c = ' ' || c = '\t' || c = '\n' || c = '\r' || c = '\x0b' || c = '\x0c'

/-- `.replace(/\s+/g, ' ')`: every maximal whitespace run becomes one
space. -/
def collapseRuns : List Char → List Char
  | [] => []
  | [c] => [if isWs c then ' ' else c]
  | c :: c2 :: cs =>
    if isWs c then
      if isWs c2 then collapseRuns (c2 :: cs)
      else ' ' :: collapseRuns (c2 :: cs)
    else c :: collapseRuns (c2 :: cs)

/-- `.trim()`: drop whitespace from both ends. -/
def trimWs (l : List Char) : List Char :=
  List.rdropWhile isWs (l.dropWhile isWs)

def cleanWs (s : String) : String :=
  ⟨trimWs (collapseRuns s.data)⟩

/-- No two adjacent whitespace characters. -/
def wsPairOk (a b : Char) : Prop :=
  isWs a = false ∨ isWs b = false

/-- Normal form produced by the filter pass on text: adjacent whitespace
never occurs, every whitespace character is a plain space, and the ends
are not whitespace. -/
def wsNormal (l : List Char) : Prop :=
  List.Chain' wsPairOk l ∧ (∀ c ∈ l, isWs c = true → c = ' ') ∧
  (∀ c ∈ l.head?, isWs c = false) ∧ (∀ c ∈ l.getLast?, isWs c = false)

theorem collapseRuns_cons_not {c : Char} (cs : List Char) (h : isWs c = false) :
    collapseRuns (c :: cs) = c :: collapseRuns cs := by
  cases cs with
  | nil => simp [collapseRuns, h]
  | cons c2 cs2 => simp [collapseRuns, h]

theorem collapseRuns_space : ∀ l : List Char, ∀ c ∈ collapseRuns l, isWs c = true → c = ' ' := by
  intro l
  induction l with
  | nil => intro c hc; simp [collapseRuns] at hc
  | cons a l ih =>
    intro c hc hw
    cases l with
    | nil =>
      simp only [collapseRuns, List.mem_singleton] at hc
      subst hc
      by_cases ha : isWs a = true
      · rw [if_pos ha]
      · rw [if_neg ha] at hw
        exact absurd hw ha
    | cons c2 cs2 =>
      simp only [collapseRuns] at hc
      by_cases ha : isWs a = true
      · rw [if_pos ha] at hc
        by_cases h2 : isWs c2 = true
        · rw [if_pos h2] at hc
          exact ih c hc hw
        · rw [if_neg h2] at hc
          rcases List.mem_cons.mp hc with rfl | hc
          · rfl
          · exact ih c hc hw
      · rw [if_neg ha] at hc
        rcases List.mem_cons.mp hc with rfl | hc
        · exact absurd hw ha
        · exact ih c hc hw

theorem collapseRuns_chain : ∀ l : List Char, List.Chain' wsPairOk (collapseRuns l) := by
  intro l
  induction l with
  | nil => simp [collapseRuns]
  | cons a l ih =>
    cases l with
    | nil => simp [collapseRuns]
    | cons c2 cs2 =>
      simp only [collapseRuns]
      by_cases ha : isWs a = true
      · rw [if_pos ha]
        by_cases h2 : isWs c2 = true
        · rw [if_pos h2]
          exact ih
        · rw [if_neg h2]
          rw [collapseRuns_cons_not cs2 (by simpa using h2)] at ih ⊢
          exact List.chain'_cons.mpr ⟨Or.inr (by simpa using h2), ih⟩
      · rw [if_neg ha]
        refine List.chain'_cons'.mpr ⟨?_, ih⟩
        intro b _
        exact Or.inl (by simpa using ha)

theorem collapseRuns_eq_self : ∀ l : List Char, List.Chain' wsPairOk l →
    (∀ c ∈ l, isWs c = true → c = ' ') → collapseRuns l = l := by
  intro l
  induction l with
  | nil => intro _ _; rfl
  | cons a l ih =>
    intro hch hsp
    cases l with
    | nil =>
      by_cases ha : isWs a = true
      · simp [collapseRuns, ha, hsp a (by simp) ha]
      · simp [collapseRuns, ha]
    | cons c2 cs2 =>
      simp only [collapseRuns]
      have hch2 := List.chain'_cons.mp hch
      by_cases ha : isWs a = true
      · by_cases h2 : isWs c2 = true
        · rcases hch2.1 with h | h
          · exact absurd ha (by simp [h])
          · exact absurd h2 (by simp [h])
        · rw [if_pos ha, if_neg h2]
          rw [ih hch2.2 (fun c hc hw => hsp c (List.mem_cons_of_mem _ hc) hw)]
          rw [hsp a (by simp) ha]
      · rw [if_neg ha]
        rw [ih hch2.2 (fun c hc hw => hsp c (List.mem_cons_of_mem _ hc) hw)]

theorem dropWhile_head_not (p : Char → Bool) :
    ∀ l : List Char, ∀ c ∈ (l.dropWhile p).head?, p c = false := by
  intro l
  induction l with
  | nil => intro c hc; simp at hc
  | cons a l ih =>
    intro c hc
    rw [List.dropWhile_cons] at hc
    by_cases hp : p a = true
    · rw [if_pos hp] at hc
      exact ih c hc
    · rw [if_neg hp] at hc
      simp only [List.head?_cons, Option.mem_def, Option.some.injEq] at hc
      subst hc
      simpa using hp

theorem head_of_isPre {l₁ l₂ : List Char} (h : l₁ <+: l₂) :
    ∀ c ∈ l₁.head?, c ∈ l₂.head? := by
  obtain ⟨t, rfl⟩ := h
  intro c hc
  cases l₁ with
  | nil => simp at hc
  | cons a l => simpa using hc

theorem trimWs_eq_self (l : List Char)
    (hhead : ∀ c ∈ l.head?, isWs c = false)
    (hlast : ∀ c ∈ l.getLast?, isWs c = false) : trimWs l = l := by
  unfold trimWs
  have hd : l.dropWhile isWs = l := by
    cases l with
    | nil => rfl
    | cons a l =>
      rw [List.dropWhile_cons, if_neg (by simp [hhead a (by simp)])]
  rw [hd]
  rcases heq : l with _ | ⟨a, l'⟩
  · rfl
  · rw [← heq]
    rw [List.rdropWhile_eq_self_iff]
    intro hne
    rw [List.getLast?_eq_getLast_of_ne_nil hne] at hlast
    simp [hlast ((l.getLast hne)) (by simp)]

theorem trimWs_chain {l : List Char} (h : List.Chain' wsPairOk l) :
    List.Chain' wsPairOk (trimWs l) := by
  have hp := List.rdropWhile_prefix isWs (l.dropWhile isWs)
  have hs := List.Chain'.suffix h (List.dropWhile_suffix isWs)
  exact List.Chain'.prefix hs hp

theorem trimWs_subset (l : List Char) : ∀ c ∈ trimWs l, c ∈ l := by
  intro c hc
  have hp := List.rdropWhile_prefix isWs (l.dropWhile isWs)
  have h1 := hp.sublist.subset hc
  exact (List.dropWhile_suffix isWs).sublist.subset h1

theorem trimWs_head (l : List Char) : ∀ c ∈ (trimWs l).head?, isWs c = false := by
  intro c hc
  have hp := List.rdropWhile_prefix isWs (l.dropWhile isWs)
  exact dropWhile_head_not isWs l c (head_of_isPre hp c hc)

theorem trimWs_last (l : List Char) : ∀ c ∈ (trimWs l).getLast?, isWs c = false := by
  intro c hc
  obtain ⟨hne, rfl⟩ := List.mem_getLast?_eq_getLast hc
  have := List.rdropWhile_last_not (p := isWs) (l := l.dropWhile isWs) hne
  simpa using this

theorem cleanWs_wsNormal (s : String) : wsNormal (cleanWs s).data := by
  show wsNormal (trimWs (collapseRuns s.data))
  refine ⟨trimWs_chain (collapseRuns_chain _), ?_, trimWs_head _, trimWs_last _⟩
  intro c hc hw
  exact collapseRuns_space s.data c (trimWs_subset _ c hc) hw

theorem wsNormal_fixed {l : List Char} (h : wsNormal l) : trimWs (collapseRuns l) = l := by
  rw [collapseRuns_eq_self l h.1 h.2.1]
  exact trimWs_eq_self l h.2.2.1 h.2.2.2

theorem cleanWs_idem (s : String) : cleanWs (cleanWs s) = cleanWs s := by
  show String.mk (trimWs (collapseRuns (cleanWs s).data)) = cleanWs s
  rw [wsNormal_fixed (cleanWs_wsNormal s)]

/-- The object read by `filterData`: the four fields it touches. -/
structure PageBlob where
  links : List String
  images : List String
  textContent : String
  htmlContent : String
deriving DecidableEq, Repr

/-- `filterData`: deduplicate links and images through a JS `Set`, collapse
whitespace runs in the text and trim it; `htmlContent` is copied. -/
def filterData (d : PageBlob) : PageBlob :=
  { links := jsSetOfList d.links,
    images := jsSetOfList d.images,
    textContent := cleanWs d.textContent,
    htmlContent := d.htmlContent }

theorem jsSetOfList_nodup (l : List String) : (jsSetOfList l).Nodup :=
  foldl_setInsert_nodup l [] List.nodup_nil

theorem jsSetOfList_idem (l : List String) : jsSetOfList (jsSetOfList l) = jsSetOfList l := by
  show List.foldl setInsert [] (jsSetOfList l) = jsSetOfList l
  rw [foldl_setInsert_eq_self (jsSetOfList l) [] (by simpa using jsSetOfList_nodup l)]
  simp

/-- Claim C7: the filter pass is idempotent; deduplication keeps each
element's first occurrence in place (so insertion order of first occurrence
is preserved: the result is a duplicate-free sublist of the input with the
same members, satisfying the first-occurrence recursion); and the filtered
text is whitespace-normal: no adjacent whitespace, every whitespace is a
single space, ends trimmed. -/
theorem c7_filter_idempotent :
    (∀ d : PageBlob, filterData (filterData d) = filterData d) ∧
    (∀ (x : String) (l : List String),
      jsSetOfList (x :: l) = x :: jsSetOfList (l.filter (fun a => a ≠ x))) ∧
    (∀ l : List String, (jsSetOfList l).Nodup ∧ List.Sublist (jsSetOfList l) l ∧
      (∀ x, x ∈ jsSetOfList l ↔ x ∈ l)) ∧
    (∀ d : PageBlob, wsNormal (filterData d).textContent.data) := by
  refine ⟨?_, jsSetOfList_cons, ?_, ?_⟩
  · intro d
    simp only [filterData, PageBlob.mk.injEq]
    exact ⟨jsSetOfList_idem _, jsSetOfList_idem _, cleanWs_idem _, trivial⟩
  · intro l
    refine ⟨jsSetOfList_nodup l, ?_, ?_⟩
    · obtain ⟨e, he, hs⟩ := foldl_setInsert_sublist l []
      show List.Sublist (List.foldl setInsert [] l) l
      rw [he]
      simpa using hs
    · intro x
      show x ∈ List.foldl setInsert [] l ↔ x ∈ l
      rw [foldl_setInsert_mem l [] x]
      simp
  · intro d
    exact cleanWs_wsNormal d.textContent

/-- JS `url.replace(/^https?:\/\//, '')`. -/
def stripScheme (s : String) : String :=
  if strStartsWith s "https://" then ⟨s.data.drop 8⟩
  else if strStartsWith s "http://" then ⟨s.data.drop 7⟩
  else s

/-- JS `url.replace(/\//g, '_')`. -/
def slashToUnderscore (s : String) : String :=
  ⟨s.data.map (fun c => if c = '/' then '_' else c)⟩

/-- The output filename `main` derives from the seed URL. -/
def fileNameOf (url : String) : String :=
  slashToUnderscore (stripScheme url) ++ ".json"

def PageRecord.toBlob (r : PageRecord) : PageBlob :=
  { links := r.links, images := r.images,
    textContent := r.textContent, htmlContent := r.htmlContent }

inductive FileContent where
  | raw (data : List PageRecord)
  | filtered (d : PageBlob)
deriving DecidableEq, Repr

/-- The tail of `main` after `scrapperFunc` resolves with `data`: the raw
result file is always written first; then `filterData(data[0])` runs —
when `data` is empty `data[0]` is `undefined` and `filterData` throws on
reading `.textContent` of it, the surrounding `catch` logs the error, and
the filtered file write is never reached.  Returns the file writes
performed, in order, and whether an error was caught. -/
def mainSave (url : String) (data : List PageRecord) :
    List (String × FileContent) × Bool :=
  let f := fileNameOf url
  match data.head? with
  | none => ([(f, FileContent.raw data)], true)
  | some r => ([(f, FileContent.raw data),
      ("filtered_" ++ f, FileContent.filtered (filterData r.toBlob))], false)

/-- Claim C9: a crawl with `timeLimit = 0` (deadline expired at entry)
yields an empty CrawlResult; `main` then writes the unfiltered result file,
and the filter step — `filterData(data[0])` with `data[0]` absent — throws,
so the filtered file is not produced even though the unfiltered file was
already written. -/
theorem c9_empty_result_filter_throws (m : List (String × PageData))
    (clock : Nat → Nat) (url : String) :
    (runCrawl m 0 clock url).1.allData = [] ∧
    mainSave url (runCrawl m 0 clock url).1.allData =
      ([(fileNameOf url, FileContent.raw [])], true) := by
  have hfb : fuelBound m = ((m.map (fun p => p.2.links.length + 2)).sum + 1) + 1 := rfl
  have hd : deadlineCheck 0 (clock 0) = true := decide_eq_true (by simp)
  have hempty : (runCrawl m 0 clock url).1.allData = [] := by
    unfold runCrawl
    rw [hfb]
    simp [crawlGo, initState, hd]
  refine ⟨hempty, ?_⟩
  rw [hempty]
  rfl

/-- JS truthiness of a request-body string field: absent or empty is
falsy. -/
def truthyStr : Option String → Bool
  | none => false
  | some s => !(s == "")

/-- JS truthiness of a numeric field: absent or zero is falsy (negative
numbers are truthy). -/
def truthyNum : Option Int → Bool
  | none => false
  | some n => !(n == 0)

structure ScrapeBody where
  url : Option String
  websiteType : Option String
  timeLimit : Option Int
  limit : Option Int
  offset : Option Int
deriving DecidableEq, Repr

def websiteTypes : List String := ["news", "ecommerce", "weather"]

/-- JS `.toLowerCase()` character-wise. -/
def strToLower (s : String) : String :=
  ⟨s.data.map Char.toLower⟩

inductive RouteResult where
  | badRequest (msg : String)
  | scraped (url websiteType : String) (timeLimit limit offset : Int)
deriving DecidableEq, Repr

/-- The `POST /scrape` handler: required-fields check by JS truthiness,
websiteType membership check, then the call into `scrapePage` — which
launches the browser and issues the first `page.goto` without any further
validation of `timeLimit`.  `scraped` marks that point: fetching begins. -/
def scrapeRoute (b : ScrapeBody) : RouteResult :=
  if !truthyStr b.url || !truthyStr b.websiteType || !truthyNum b.timeLimit then
    RouteResult.badRequest "url, websiteType, and timeLimit are required fields."
  else if !(websiteTypes.contains (strToLower (b.websiteType.getD ""))) then
    RouteResult.badRequest "Invalid websiteType."
  else
    RouteResult.scraped (b.url.getD "") (strToLower (b.websiteType.getD ""))
      (b.timeLimit.getD 0) (b.limit.getD 100) (b.offset.getD 0)

def isBadRequest : RouteResult → Bool
  | RouteResult.badRequest _ => true
  | _ => false

/-- Claim C5, counterexample: a strictly negative time limit is *not*
rejected: `timeLimit = -5` is truthy, so the request passes validation and
proceeds to `scrapePage`, where the browser is launched and the seed fetch
begins; no 4xx is returned for it. -/
theorem c5_counterexample :
    ((-5 : Int) < 0) ∧
    scrapeRoute ⟨some "https://x.com", some "news", some (-5), none, none⟩ =
      RouteResult.scraped "https://x.com" "news" (-5) 100 0 :=
  ⟨by decide, by decide⟩

/-- Claim C5 as amended: the endpoint answers 400 exactly when a required
field is JS-falsy — URL or websiteType missing/empty, timeLimit missing or
zero — or the websiteType is unrecognized; these are rejected before any
fetch begins.  A negative time limit is truthy and is not rejected. -/
theorem c5_validation_amended (b : ScrapeBody) :
    isBadRequest (scrapeRoute b) =
      (!truthyStr b.url || !truthyStr b.websiteType || !truthyNum b.timeLimit ||
        !(websiteTypes.contains (strToLower (b.websiteType.getD "")))) := by
  by_cases hA : truthyStr b.url = true <;>
    by_cases hB : truthyStr b.websiteType = true <;>
      by_cases hC : truthyNum b.timeLimit = true <;>
        by_cases hD : websiteTypes.contains (strToLower (b.websiteType.getD "")) = true <;>
          simp [scrapeRoute, isBadRequest, hA, hB, hC, hD] <;> simp_all

/-- ECMAScript relative-index resolution used by `Array.prototype.slice`:
negative indices count from the end, clamped to `[0, len]`. -/
def jsSliceIdx (len : Nat) (i : Int) : Nat :=
  if i < 0 then (Int.ofNat len + i).toNat else min i.toNat len

/-- ECMAScript `Array.prototype.slice(start, end)`. -/
def jsSlice {α : Type} (xs : List α) (start fin : Int) : List α :=
  let s := jsSliceIdx xs.length start
  let e := jsSliceIdx xs.length fin
  (xs.drop s).take (e - s)

structure TypedOutput (α : Type) where
  websiteType : String
  limit : Int
  offset : Int
  count : Nat
  total : Nat
  data : List α
deriving DecidableEq, Repr

/-- `scrapePage` of the typed-site variant, with the page environment
abstracted: `seedRaw` is the relevant-links list collected on the seed page
in document order (duplicates included), or `none` when the initial
`page.goto` fails; `getRelevantLinks` dedups it through a JS `Set`.
`extract link` is the per-link navigation + typed extraction, `none` when
it throws (logged, loop continues).  The body mirrors the source: `total`
from the unique links, `slice(offset, offset + limit)`, one `items.push`
per successful extraction, and the `{websiteType, pagination, data}`
output. -/
def scrapePage {α : Type} (seedRaw : Option (List String)) (extract : String → Option α)
    (websiteType : String) (limit offset : Int) : Option (TypedOutput α) :=
  match seedRaw with
  | none => none
  | some raw =>
    let uniqueLinks := jsSetOfList raw
    let total := uniqueLinks.length
    let paginatedLinks := jsSlice uniqueLinks offset (offset + limit)
    let items := paginatedLinks.filterMap extract
    some { websiteType := websiteType, limit := limit, offset := offset,
           count := items.length, total := total, data := items }

/-- Claim C10, counterexample: `parseInt` never constrains sign, and with
`limit = -1`, `offset = 0` and three distinct relevant links the run
succeeds with `count = 2`, violating `count ≤ limit` (and `data` is not the
links at indices `[offset, offset + limit)`, which would be empty): JS
`slice(0, -1)` counts the end index from the end of the array. -/
theorem c10_counterexample :
    scrapePage (some ["l1", "l2", "l3"]) (fun s => some s) "news" (-1) 0 =
      some ⟨"news", -1, 0, 2, 3, ["l1", "l2"]⟩ ∧
    ¬((2 : Int) ≤ -1) :=
  ⟨by decide, by decide⟩

theorem jsSlice_length_le {α : Type} (xs : List α) (offset limit : Int)
    (ho : 0 ≤ offset) (hl : 0 ≤ limit) :
    (jsSlice xs offset (offset + limit)).length ≤ limit.toNat ∧
    (jsSlice xs offset (offset + limit)).length ≤ xs.length := by
  unfold jsSlice jsSliceIdx
  rw [if_neg (by omega), if_neg (by omega)]
  simp only [List.length_take, List.length_drop]
  have := Int.toNat_add ho hl
  omega

/-- Claim C10 as amended: for nonnegative `offset` and `limit`, every
successful typed-site run satisfies the pagination invariant — `total` is
the number of unique relevant links on the seed page, `data` is exactly the
successful extractions from the slice `[offset, offset + limit)` of those
links in slice order, `count = data.length`, `count ≤ limit` and
`count ≤ total`.  (With negative `offset` or `limit`, which validation
does not exclude, the slice window reads from the array's end and the
bounds fail — see the counterexample.) -/
theorem c10_pagination_amended {α : Type} (raw : List String) (extract : String → Option α)
    (wt : String) (limit offset : Int) (out : TypedOutput α)
    (hl : 0 ≤ limit) (ho : 0 ≤ offset)
    (hout : scrapePage (some raw) extract wt limit offset = some out) :
    out.total = (jsSetOfList raw).length ∧
    out.data = (jsSlice (jsSetOfList raw) offset (offset + limit)).filterMap extract ∧
    out.count = out.data.length ∧
    (out.count : Int) ≤ limit ∧
    out.count ≤ out.total := by
  have hout' : out =
      { websiteType := wt, limit := limit, offset := offset,
        count := ((jsSlice (jsSetOfList raw) offset (offset + limit)).filterMap extract).length,
        total := (jsSetOfList raw).length,
        data := (jsSlice (jsSetOfList raw) offset (offset + limit)).filterMap extract } := by
    have := hout
    unfold scrapePage at this
    exact (Option.some.inj this).symm
  subst hout'
  have hslice := jsSlice_length_le (jsSetOfList raw) offset limit ho hl
  have hfm := List.length_filterMap_le extract (jsSlice (jsSetOfList raw) offset (offset + limit))
  refine ⟨rfl, rfl, rfl, ?_, ?_⟩
  · simp only
    omega
  · simp only
    omega

theorem c10_pagination_amended_witness :
    (⟨"news", 2, 1, 1, 3, ["l2"]⟩ : TypedOutput String).total =
      (jsSetOfList ["l1", "l2", "l3", "l1"]).length ∧
    (⟨"news", 2, 1, 1, 3, ["l2"]⟩ : TypedOutput String).data =
      (jsSlice (jsSetOfList ["l1", "l2", "l3", "l1"]) 1 (1 + 2)).filterMap
        (fun s => if s = "l3" then none else some s) ∧
    (⟨"news", 2, 1, 1, 3, ["l2"]⟩ : TypedOutput String).count =
      (⟨"news", 2, 1, 1, 3, ["l2"]⟩ : TypedOutput String).data.length ∧
    ((⟨"news", 2, 1, 1, 3, ["l2"]⟩ : TypedOutput String).count : Int) ≤ 2 ∧
    (⟨"news", 2, 1, 1, 3, ["l2"]⟩ : TypedOutput String).count ≤
      (⟨"news", 2, 1, 1, 3, ["l2"]⟩ : TypedOutput String).total :=
  c10_pagination_amended ["l1", "l2", "l3", "l1"]
    (fun s => if s = "l3" then none else some s) "news" 2 1
    ⟨"news", 2, 1, 1, 3, ["l2"]⟩ (by decide) (by decide) (by decide)
